import Mathlib

/-!
Verification of the chunked voxel world core (sandbox game variant).

The embedding follows the source component by component:
* the block kind enumeration and the chunk / world store data model;
* `getBlock` and `setBlock` (world-coordinate voxel lookup and store with
  lazy chunk generation keyed by the floored chunk coordinate);
* the TNT entity machinery (`igniteTNT`, `explodeTNT`, the per-entity tick
  body of the game loop);
* the pick ray (`raycast`), `breakBlock` and `placeBlock`, and the
  inventory updates they perform.

Real-number data of the source (positions, velocities, ray directions) is
embedded with exact rationals; every IEEE double is a rational number, so
this is a faithful carrier for the concrete values the source manipulates.
The terrain generator and the random number generator are taken as explicit
parameters (`gen`, and the oracles `rv`, `rd`): the generator output and the
random draws are inputs of the algorithms under verification, and no claim
depends on their internal definition.
-/

namespace Voxel

/-- Block kind enumeration, from the source `BlockType` union. -/
inductive BlockType where
  | air | grass | dirt | stone | wood | planks | leaves | water | sand
  | cobblestone | glass | brick | tnt
deriving DecidableEq, Repr

/-- A voxel, from the source `interface Block { type: BlockType }`. -/
structure Block where
  type : BlockType
deriving DecidableEq, Repr

/-- Chunk: a dense 16 x 64 x 16 voxel array, indexed `[localX][y][localZ]`
as in the source nested arrays. Embedded as a total function. -/
def Chunk : Type := Nat → Nat → Nat → Block

/-- Source constant `CHUNK_SIZE = 16`. -/
def CHUNK_SIZE : Int := 16

/-- Source constant `WORLD_HEIGHT = 64`. -/
def WORLD_HEIGHT : Int := 64

/-- The chunk map: the source keeps `Map<string, Block[][][]>` keyed by the
string `chunkX + "," + chunkZ`; the key set is in bijection with the pair
of integers, so the embedding keys directly by the pair. Association list
with the insertion semantics of a JS Map. -/
def ChunkMap : Type := List ((Int × Int) × Chunk)

/-- Lookup in the chunk map (`Map.get`). -/
def mapGet : ChunkMap → (Int × Int) → Option Chunk
  | [], _ => none
  | (k', c) :: rest, k => if k' = k then some c else mapGet rest k

/-- Key-presence test (`Map.has`). -/
def mapHas (m : ChunkMap) (k : Int × Int) : Bool := (mapGet m k).isSome

/-- Insertion (`Map.set`): overwrite the stored chunk if the key is
present, append otherwise. -/
def mapSet : ChunkMap → (Int × Int) → Chunk → ChunkMap
  | [], k, c => [(k, c)]
  | (k', c') :: rest, k, c =>
      if k' = k then (k, c) :: rest else (k', c') :: mapSet rest k c

/-- World store state: the chunk map held in `worldRef`. -/
structure World where
  chunks : ChunkMap

/-- Chunk coordinate of a world coordinate: `Math.floor(x / CHUNK_SIZE)`. -/
def chunkCoord (x : Int) : Int := x.fdiv CHUNK_SIZE

/-- Local index inside a chunk: the source floored-modulo expression
`((x % CHUNK_SIZE) + CHUNK_SIZE) % CHUNK_SIZE`, with the JS `%`
(sign-of-dividend remainder) embedded as `Int.tmod`. -/
def localIndex (x : Int) : Int := ((x.tmod CHUNK_SIZE) + CHUNK_SIZE).tmod CHUNK_SIZE

/-- Lazy chunk generation step shared by `getBlock` and `setBlock`: if the
key is absent, generate the chunk and insert it. -/
def ensure (gen : Int → Int → Chunk) (m : ChunkMap) (cx cz : Int) : ChunkMap :=
  if mapHas m (cx, cz) then m else mapSet m (cx, cz) (gen cx cz)

/-- Placeholder chunk for the `get(key)!` non-null assertion; after
`ensure` the key is always present, so it is never read. -/
def junkChunk : Chunk := fun _ _ _ => ⟨.air⟩

/-- Source `getBlock(x, y, z)`: resolve the chunk coordinate, lazily
generate the chunk if absent, then return air if `y` is out of the
vertical range, else the stored voxel. Returns the block together with
the updated world (the source mutates `worldRef` in place). Note the
vertical-range check happens only after the chunk has been materialized,
exactly as in the source. -/
def getBlock (gen : Int → Int → Chunk) (w : World) (x y z : Int) : Block × World :=
  let cx := chunkCoord x
  let cz := chunkCoord z
  let m := ensure gen w.chunks cx cz
  let c := (mapGet m (cx, cz)).getD junkChunk
  if y < 0 ∨ WORLD_HEIGHT ≤ y then (⟨.air⟩, ⟨m⟩)
  else (c (localIndex x).toNat y.toNat (localIndex z).toNat, ⟨m⟩)

/-- Pointwise update of a chunk array cell. -/
def chunkUpdate (c : Chunk) (lx ly lz : Nat) (b : Block) : Chunk :=
  fun i j k => if i = lx ∧ j = ly ∧ k = lz then b else c i j k

/-- Source `setBlock(x, y, z, block)`: same chunk resolution and lazy
generation as `getBlock`; overwrites the voxel in place when `y` is in
the vertical range, no-op on the voxel data otherwise. -/
def setBlock (gen : Int → Int → Chunk) (w : World) (x y z : Int) (b : Block) : World :=
  let cx := chunkCoord x
  let cz := chunkCoord z
  let m := ensure gen w.chunks cx cz
  let c := (mapGet m (cx, cz)).getD junkChunk
  if 0 ≤ y ∧ y < WORLD_HEIGHT then
    ⟨mapSet m (cx, cz) (chunkUpdate c (localIndex x).toNat y.toNat (localIndex z).toNat b)⟩
  else ⟨m⟩

/-- Observable voxel content of the world at a coordinate: the value
`getBlock` returns, read off without performing the materialization.
Used to state frame conditions. -/
def peek (gen : Int → Int → Chunk) (w : World) (x y z : Int) : Block :=
  if y < 0 ∨ WORLD_HEIGHT ≤ y then ⟨.air⟩
  else
    ((mapGet w.chunks (chunkCoord x, chunkCoord z)).getD
        (gen (chunkCoord x) (chunkCoord z)))
      (localIndex x).toNat y.toNat (localIndex z).toNat

/-- Dynamic TNT entity, from the source `interface TNTEntity`. -/
structure TNTEntity where
  x : ℚ
  y : ℚ
  z : ℚ
  velX : ℚ
  velY : ℚ
  velZ : ℚ
  fuse : Int
deriving DecidableEq, Repr

/-- Source `igniteTNT(x, y, z)`: append a fresh armed entity at the voxel
center with fuse 80 and the random nudge velocities, and clear the voxel.
`rv` is the oracle supplying the two `Math.random()` draws
(`velX = (draw - 0.5) * 0.02`, `velZ` likewise, `velY = 0.2`). -/
def igniteTNT (gen : Int → Int → Chunk) (rv : Int → Int → Int → ℚ × ℚ)
    (st : World × List TNTEntity) (x y z : Int) : World × List TNTEntity :=
  let e : TNTEntity :=
    { x := (x : ℚ) + 1/2, y := (y : ℚ) + 1/2, z := (z : ℚ) + 1/2
      velX := ((rv x y z).1 - 1/2) * (1/50)
      velY := 1/5
      velZ := ((rv x y z).2 - 1/2) * (1/50)
      fuse := 80 }
  (setBlock gen st.1 x y z ⟨.air⟩, st.2 ++ [e])

/-- Destruction test of `explodeTNT`: the source draws
`Math.random() > dist / radius * 0.5` with `dist = sqrt n` (`n` the squared
integer offset) and `radius = 4`, that is `draw > sqrt n / 8`. For a draw
`q` this comparison is encoded without square roots by squaring both
sides, valid because both are nonnegative there: for `q ≥ 0` it is
equivalent to `n < 64 * q * q`, and for `q < 0` both are false. -/
def destroys (q : ℚ) (n : Int) : Bool :=
  decide (0 ≤ q ∧ (n : ℚ) < 64 * q * q)

/-- Per-offset body of the `explodeTNT` triple loop. The radius test
`sqrt n ≤ 4` of the source is encoded as `n ≤ 16` (squaring, both sides
nonnegative). `Math.floor(x + dx)` is the rational floor. `rd` is the
oracle supplying the destruction draw for the voxel at a given offset. -/
def explodeStep (gen : Int → Int → Chunk) (rv : Int → Int → Int → ℚ × ℚ)
    (rd : Int → Int → Int → ℚ) (x y z : ℚ)
    (st : World × List TNTEntity) (d : Int × Int × Int) : World × List TNTEntity :=
  let dx := d.1
  let dy := d.2.1
  let dz := d.2.2
  let n := dx * dx + dy * dy + dz * dz
  if n ≤ 16 then
    let bx := ⌊x + (dx : ℚ)⌋
    let bY := ⌊y + (dy : ℚ)⌋
    let bz := ⌊z + (dz : ℚ)⌋
    let g := getBlock gen st.1 bx bY bz
    if g.1.type = .tnt then igniteTNT gen rv (g.2, st.2) bx bY bz
    else if g.1.type ≠ .air ∧ destroys (rd dx dy dz) n then
      (setBlock gen g.2 bx bY bz ⟨.air⟩, st.2)
    else (g.2, st.2)
  else st

/-- Offsets visited per axis by the `explodeTNT` loop:
the integers from `-radius` to `radius` with `radius = 4`. -/
def offsetRange : List Int := [-4, -3, -2, -1, 0, 1, 2, 3, 4]

/-- Offset grid of the `explodeTNT` triple loop: the three nested loops
over `[-radius, radius]` in source order (dx outer, dy middle, dz inner). -/
def offsetGrid : List (Int × Int × Int) :=
  offsetRange.flatMap fun dx =>
    offsetRange.flatMap fun dy =>
      offsetRange.map fun dz => (dx, dy, dz)

/-- Source `explodeTNT(x, y, z)`: visit every integer offset in the
radius-4 cube and apply the per-offset body. -/
def explodeTNT (gen : Int → Int → Chunk) (rv : Int → Int → Int → ℚ × ℚ)
    (rd : Int → Int → Int → ℚ) (st : World × List TNTEntity)
    (x y z : ℚ) : World × List TNTEntity :=
  offsetGrid.foldl (explodeStep gen rv rd x y z) st

/-- Outcome of one detonation on a single voxel, as a function of its
pre-detonation content, the destruction draw `q` and the squared offset
`n`: tnt is chain-ignited to air, other non-air voxels are destroyed to
air exactly when the draw test passes, everything else is untouched. -/
def explodeOutcome (b : Block) (q : ℚ) (n : Int) : Block :=
  if b.type = .tnt then ⟨.air⟩
  else if b.type ≠ .air ∧ destroys q n then ⟨.air⟩
  else b

/-- Per-entity body of the game-loop TNT update (an armed entity for one
tick): decrement the fuse and detonate if it is no longer positive,
otherwise apply gravity, integrate the position, and rest on the voxel
read at `floor(y - 0.5)` when it is not air. The processed entity is
appended to the accumulator list `st.2`, as in the source `updated` list;
on detonation it is dropped. -/
def tntStep (gen : Int → Int → Chunk) (rv : Int → Int → Int → ℚ × ℚ)
    (rd : Int → Int → Int → ℚ) (st : World × List TNTEntity)
    (t : TNTEntity) : World × List TNTEntity :=
  let fuse' := t.fuse - 1
  if fuse' ≤ 0 then explodeTNT gen rv rd st t.x t.y t.z
  else
    let velY' := t.velY - 1/50
    let x' := t.x + t.velX
    let y' := t.y + velY'
    let z' := t.z + t.velZ
    let g := getBlock gen st.1 ⌊x'⌋ ⌊y' - 1/2⌋ ⌊z'⌋
    if g.1.type ≠ .air then
      (g.2, st.2 ++ [{ x := x', y := (⌊y'⌋ : ℚ) + 1/2, z := z',
                       velX := t.velX * (4/5), velY := 0, velZ := t.velZ * (4/5),
                       fuse := fuse' }])
    else
      (g.2, st.2 ++ [{ x := x', y := y', z := z',
                       velX := t.velX, velY := velY', velZ := t.velZ,
                       fuse := fuse' }])

/-- Modelled from the spec, for refutation only: the per-entity tick as
claim C6 words it. It differs from the source `tntStep` in the ground
test: the claim reads the voxel one unit below the entity
(`floor(y) - 1`) and counts a voxel as solid only when it is neither air
nor water, while the source reads `floor(y - 0.5)` and rests on anything
that is not air (water included). -/
def claimedTntStep (gen : Int → Int → Chunk) (rv : Int → Int → Int → ℚ × ℚ)
    (rd : Int → Int → Int → ℚ) (st : World × List TNTEntity)
    (t : TNTEntity) : World × List TNTEntity :=
  let fuse' := t.fuse - 1
  if fuse' ≤ 0 then explodeTNT gen rv rd st t.x t.y t.z
  else
    let velY' := t.velY - 1/50
    let x' := t.x + t.velX
    let y' := t.y + velY'
    let z' := t.z + t.velZ
    let g := getBlock gen st.1 ⌊x'⌋ (⌊y'⌋ - 1) ⌊z'⌋
    if g.1.type ≠ .air ∧ g.1.type ≠ .water then
      (g.2, st.2 ++ [{ x := x', y := (⌊y'⌋ : ℚ) + 1/2, z := z',
                       velX := t.velX * (4/5), velY := 0, velZ := t.velZ * (4/5),
                       fuse := fuse' }])
    else
      (g.2, st.2 ++ [{ x := x', y := y', z := z',
                       velX := t.velX, velY := velY', velZ := t.velZ,
                       fuse := fuse' }])

/-- Inventory slot, from the source
`interface InventorySlot { type: BlockType | null; count: number }`. -/
structure InventorySlot where
  type : Option BlockType
  count : Int
deriving DecidableEq, Repr

/-- First phase of the survival pickup in `breakBlock`: the source
`inventory.find(s => s.type === block.type && s.count < 64)` followed by
`slot.count++`. Returns `none` when no slot matches. -/
def bumpMatch : List InventorySlot → BlockType → Option (List InventorySlot)
  | [], _ => none
  | s :: rest, b =>
      if s.type = some b ∧ s.count < 64 then some ({ s with count := s.count + 1 } :: rest)
      else (bumpMatch rest b).map (s :: ·)

/-- Second phase of the survival pickup: the source
`inventory.find(s => s.type === null)` followed by
`emptySlot.type = block.type; emptySlot.count = 1`. Identity when no
empty slot exists. -/
def fillEmpty : List InventorySlot → BlockType → List InventorySlot
  | [], _ => []
  | s :: rest, b =>
      if s.type = none then { type := some b, count := 1 } :: rest
      else s :: fillEmpty rest b

/-- Survival-mode inventory effect of mining a block of kind `b`. -/
def invAfterBreak (inv : List InventorySlot) (b : BlockType) : List InventorySlot :=
  match bumpMatch inv b with
  | some inv' => inv'
  | none => fillEmpty inv b

/-- Survival-mode inventory effect of placing from slot `sel`:
`count--`, and the slot kind is cleared exactly when the count reaches 0. -/
def invAfterPlace (inv : List InventorySlot) (sel : Nat) : List InventorySlot :=
  match inv.get? sel with
  | none => inv
  | some s =>
      let c := s.count - 1
      inv.set sel (if c = 0 then ⟨none, c⟩ else ⟨s.type, c⟩)

/-- Game mode of the player. -/
inductive Mode where
  | survival | creative
deriving DecidableEq, Repr

/-- Player data consumed by the block interactions: position, view
direction, selected slot and mode. The source stores yaw and pitch and
converts them to the direction vector inside `raycast`
(`dirX = cos(angleY) * cos(angleX)` and so on); the embedding carries the
resulting direction vector directly, since the claims fix it. -/
structure PlayerS where
  x : ℚ
  y : ℚ
  z : ℚ
  dirX : ℚ
  dirY : ℚ
  dirZ : ℚ
  selectedSlot : Nat
  mode : Mode
deriving DecidableEq, Repr

/-- Result of the pick ray, from the source
`{ x, y, z, face }` return value of `raycast`. -/
structure Hit where
  x : Int
  y : Int
  z : Int
  face : Nat
deriving DecidableEq, Repr

/-- Face determination of the source `raycast` on a hit: compare the
floored previous position to the floored current position per axis, in
the source order x, then y, then z; the face identifier on a crossed
axis is picked by the sign of the direction component, and 0 stands for
a same-voxel hit (no axis crossed). -/
def faceOf (p : PlayerS) (x y z px py pz : Int) : Nat :=
  if px ≠ x then (if 0 < p.dirX then 1 else 2)
  else if py ≠ y then (if 0 < p.dirY then 3 else 4)
  else if pz ≠ z then (if 0 < p.dirZ then 5 else 6)
  else 0

/-- March loop of the source `raycast`: `i` is the loop counter
(`dist = i * step`, `step = 0.1`), `fuel` the remaining iterations. On
the first voxel that is neither air nor water, the entered face is found
by comparing the floored previous position per axis, else the march
continues. -/
def raycastAux (gen : Int → Int → Chunk) (p : PlayerS) :
    Nat → Nat → World → Option Hit × World
  | _, 0, w => (none, w)
  | i, fuel + 1, w =>
    let dist : ℚ := (i : ℚ) * (1/10)
    let x := ⌊p.x + p.dirX * dist⌋
    let y := ⌊p.y + p.dirY * dist⌋
    let z := ⌊p.z + p.dirZ * dist⌋
    let g := getBlock gen w x y z
    if g.1.type ≠ .air ∧ g.1.type ≠ .water then
      let px := ⌊p.x + p.dirX * (dist - 1/10)⌋
      let py := ⌊p.y + p.dirY * (dist - 1/10)⌋
      let pz := ⌊p.z + p.dirZ * (dist - 1/10)⌋
      (some ⟨x, y, z, faceOf p x y z px py pz⟩, g.2)
    else raycastAux gen p (i + 1) fuel g.2

/-- Source `raycast()` with the default `maxDist = 5`:
`maxDist / step = 50` march iterations. -/
def raycast (gen : Int → Int → Chunk) (p : PlayerS) (w : World) : Option Hit × World :=
  raycastAux gen p 0 50 w

/-- Placement offsets per face identifier, from the source `faceOffsets`
table of `placeBlock`. -/
def faceOffsets : List (Int × Int × Int) :=
  [(0, 0, 0), (1, 0, 0), (-1, 0, 0), (0, 1, 0), (0, -1, 0), (0, 0, 1), (0, 0, -1)]

/-- Full game-session state touched by the block interactions. -/
structure GameState where
  world : World
  entities : List TNTEntity
  inventory : List InventorySlot

/-- Hit branch of `breakBlock`: re-read the target voxel; a tnt voxel is
ignited instead of mined; otherwise clear it and, in survival mode, add
one unit of its kind to the inventory. -/
def breakHit (gen : Int → Int → Chunk) (rv : Int → Int → Int → ℚ × ℚ)
    (p : PlayerS) (st : GameState) (hit : Hit) (w1 : World) : GameState :=
  if (getBlock gen w1 hit.x hit.y hit.z).1.type = .tnt then
    { st with
      world := (igniteTNT gen rv ((getBlock gen w1 hit.x hit.y hit.z).2, st.entities) hit.x hit.y hit.z).1
      entities := (igniteTNT gen rv ((getBlock gen w1 hit.x hit.y hit.z).2, st.entities) hit.x hit.y hit.z).2 }
  else
    { st with
      world := setBlock gen (getBlock gen w1 hit.x hit.y hit.z).2 hit.x hit.y hit.z ⟨.air⟩
      inventory :=
        if p.mode = .survival then
          invAfterBreak st.inventory (getBlock gen w1 hit.x hit.y hit.z).1.type
        else st.inventory }

/-- Source `breakBlock()`: cast the pick ray and process the hit. -/
def breakBlock (gen : Int → Int → Chunk) (rv : Int → Int → Int → ℚ × ℚ)
    (p : PlayerS) (st : GameState) : GameState :=
  match (raycast gen p st.world).1 with
  | none => { st with world := (raycast gen p st.world).2 }
  | some hit => breakHit gen rv p st hit (raycast gen p st.world).2

/-- Hit branch of `placeBlock`: with a usable selected slot, compute the
placement coordinate from the face offset, refuse it inside the floored
player bounding box, otherwise write the block and, in survival mode,
consume one unit from the slot. -/
def placeHit (gen : Int → Int → Chunk) (p : PlayerS) (st : GameState)
    (hit : Hit) (w1 : World) : GameState :=
  let slot := st.inventory.getD p.selectedSlot ⟨none, 0⟩
  if slot.type ≠ none ∧ 0 < slot.count then
    let off := faceOffsets.getD hit.face (0, 0, 0)
    let newX := hit.x + off.1
    let newY := hit.y + off.2.1
    let newZ := hit.z + off.2.2
    if newX < ⌊p.x - 3/10⌋ ∨ ⌊p.x + 3/10⌋ < newX ∨
       newY < ⌊p.y - 9/5⌋ ∨ ⌊p.y + 1/5⌋ < newY ∨
       newZ < ⌊p.z - 3/10⌋ ∨ ⌊p.z + 3/10⌋ < newZ then
      { st with
        world := setBlock gen w1 newX newY newZ ⟨slot.type.getD .air⟩
        inventory :=
          if p.mode = .survival then invAfterPlace st.inventory p.selectedSlot
          else st.inventory }
    else { st with world := w1 }
  else { st with world := w1 }

/-- Source `placeBlock()`: cast the pick ray and process the hit. -/
def placeBlock (gen : Int → Int → Chunk) (p : PlayerS) (st : GameState) : GameState :=
  match (raycast gen p st.world).1 with
  | none => { st with world := (raycast gen p st.world).2 }
  | some hit => placeHit gen p st hit (raycast gen p st.world).2

/-- A block-interaction event: a primary (break) or secondary (place)
action performed with the given player state. -/
inductive Action where
  | brk : PlayerS → Action
  | plc : PlayerS → Action

/-- Apply one block-interaction event to the game state. -/
def applyAction (gen : Int → Int → Chunk) (rv : Int → Int → Int → ℚ × ℚ)
    (st : GameState) : Action → GameState
  | .brk p => breakBlock gen rv p st
  | .plc p => placeBlock gen p st

/-- Apply a sequence of break/place events. -/
def applyActions (gen : Int → Int → Chunk) (rv : Int → Int → Int → ℚ × ℚ)
    (acts : List Action) (st : GameState) : GameState :=
  acts.foldl (applyAction gen rv) st

/-- Invariant of a single inventory slot: kind is absent exactly when the
count is 0, and the count lies in [0, 64]. -/
def slotOK (s : InventorySlot) : Prop :=
  (s.type = none ↔ s.count = 0) ∧ 0 ≤ s.count ∧ s.count ≤ 64

instance (s : InventorySlot) : Decidable (slotOK s) := by
  unfold slotOK; infer_instance

/-- Invariant of the whole inventory. -/
def invOK (inv : List InventorySlot) : Prop := ∀ s ∈ inv, slotOK s

instance (inv : List InventorySlot) : Decidable (invOK inv) := by
  unfold invOK; infer_instance

/-- Terrain generator producing only air, used for concrete instances. -/
def genAir : Int → Int → Chunk := fun _ _ => fun _ _ _ => ⟨.air⟩

/-- Terrain generator producing water up to local height 9 and air above,
used for concrete instances. -/
def genWaterBelow : Int → Int → Chunk :=
  fun _ _ => fun _ ly _ => if ly ≤ 9 then ⟨.water⟩ else ⟨.air⟩

/-- Constant randomness oracle for entity nudges. -/
def rvZero : Int → Int → Int → ℚ × ℚ := fun _ _ _ => (0, 0)

/-- Constant randomness oracle for destruction draws. -/
def rdZero : Int → Int → Int → ℚ := fun _ _ _ => 0

/-- World with an empty chunk map, as right after `worldRef.current.clear()`. -/
def emptyWorld : World := ⟨[]⟩

/-- Concrete world: all air except a stone voxel at (1, 0, 0). -/
def wStone : World := setBlock genAir emptyWorld 1 0 0 ⟨.stone⟩

/-- Concrete world: all air except a tnt voxel at (1, 0, 0). -/
def wTNT : World := setBlock genAir emptyWorld 1 0 0 ⟨.tnt⟩

/-- Concrete world: all air except a tnt voxel at (0, 0, 0). -/
def wTNT0 : World := setBlock genAir emptyWorld 0 0 0 ⟨.tnt⟩

/-- Concrete world: all air except a stone voxel at (0, 1, 0). -/
def wStoneEye : World := setBlock genAir emptyWorld 0 1 0 ⟨.stone⟩

/-- Concrete world: all air except a stone voxel at (0, 9, 0). -/
def wStoneFloor : World := setBlock genAir emptyWorld 0 9 0 ⟨.stone⟩

/-- Concrete player at (0.95, 0.5, 0.5) looking along the positive x axis. -/
def pPlusX : PlayerS := ⟨19/20, 1/2, 1/2, 1, 0, 0, 0, .survival⟩

/-- Concrete player at (0.5, 1.5, 0.5) looking along the positive x axis,
standing inside the voxel column (0, *, 0). -/
def pInside : PlayerS := ⟨1/2, 3/2, 1/2, 1, 0, 0, 0, .survival⟩

/-- Concrete armed entity hovering at rest over a water surface. -/
def tOverWater : TNTEntity := ⟨1/2, 21/2, 1/2, 0, 0, 0, 10⟩

/-- Concrete armed entity hovering at rest over a stone surface. -/
def tOverStone : TNTEntity := ⟨1/2, 21/2, 1/2, 0, 0, 0, 5⟩

/-!  Arithmetic facts about the coordinate decomposition. -/

theorem tmod_sixteen_bounds (x : Int) : -16 < x.tmod 16 ∧ x.tmod 16 < 16 := by
  cases x with
  | ofNat m =>
      have h : (Int.ofNat m).tmod 16 = ((m % 16 : Nat) : Int) := rfl
      have hm : m % 16 < 16 := Nat.mod_lt _ (by norm_num)
      rw [h]; omega
  | negSucc m =>
      have h : (Int.negSucc m).tmod 16 = -(((m + 1) % 16 : Nat) : Int) := rfl
      have hm : (m + 1) % 16 < 16 := Nat.mod_lt _ (by norm_num)
      rw [h]; omega

theorem localIndex_eq_emod (x : Int) : localIndex x = x % 16 := by
  have hb := tmod_sixteen_bounds x
  have ht : x.tmod 16 = x - 16 * x.tdiv 16 := by
    have := Int.tmod_add_tdiv x 16; linarith
  have h2 : (x.tmod 16 + 16).tmod 16 = (x.tmod 16 + 16) % 16 :=
    Int.tmod_eq_emod (by omega) (by norm_num)
  show ((x.tmod 16) + 16).tmod 16 = x % 16
  rw [h2, ht]
  omega

theorem chunkCoord_eq_ediv (x : Int) : chunkCoord x = x / 16 := by
  show x.fdiv CHUNK_SIZE = x / 16
  rw [show CHUNK_SIZE = 16 from rfl]
  exact Int.fdiv_eq_ediv x (by norm_num)

theorem localIndex_bounds (x : Int) : 0 ≤ localIndex x ∧ localIndex x < 16 := by
  rw [localIndex_eq_emod]
  exact ⟨Int.emod_nonneg x (by norm_num), Int.emod_lt_of_pos x (by norm_num)⟩

theorem chunkCoord_localIndex (x : Int) : chunkCoord x * 16 + localIndex x = x := by
  rw [chunkCoord_eq_ediv, localIndex_eq_emod]
  omega

theorem coord_inj {a x : Int} (hc : chunkCoord a = chunkCoord x)
    (hl : localIndex a = localIndex x) : a = x := by
  have h1 := chunkCoord_localIndex a
  have h2 := chunkCoord_localIndex x
  rw [hc, hl] at h1
  omega

theorem localIndex_toNat_inj {a x : Int}
    (h : (localIndex a).toNat = (localIndex x).toNat) : localIndex a = localIndex x := by
  have h1 := localIndex_bounds a
  have h2 := localIndex_bounds x
  omega

/-!  Chunk-map facts. -/

theorem mapGet_mapSet (m : ChunkMap) (k k' : Int × Int) (c : Chunk) :
    mapGet (mapSet m k c) k' = if k' = k then some c else mapGet m k' := by
  induction m with
  | nil =>
      simp only [mapSet, mapGet]
      by_cases h : k = k'
      · subst h; simp
      · rw [if_neg h, if_neg (fun h' : k' = k => h h'.symm)]
  | cons hd tl ih =>
      obtain ⟨hk, hc⟩ := hd
      by_cases h1 : hk = k
      · subst h1
        by_cases h2 : hk = k'
        · subst h2; simp [mapSet, mapGet]
        · simp [mapSet, mapGet, h2, show ¬ k' = hk from fun h' => h2 h'.symm]
      · by_cases h2 : hk = k'
        · subst h2
          simp [mapSet, mapGet, h1]
        · simp [mapSet, mapGet, h1, h2, ih]

theorem mapGet_ensure_value (gen : Int → Int → Chunk) (m : ChunkMap) (cx cz : Int) :
    mapGet (ensure gen m cx cz) (cx, cz) = some ((mapGet m (cx, cz)).getD (gen cx cz)) := by
  unfold ensure mapHas
  cases h : mapGet m (cx, cz) with
  | some c => simp [h]
  | none => simp [h, mapGet_mapSet]

theorem mapGet_ensure_other (gen : Int → Int → Chunk) (m : ChunkMap) (cx cz : Int)
    (k : Int × Int) (hk : k ≠ (cx, cz)) :
    mapGet (ensure gen m cx cz) k = mapGet m k := by
  unfold ensure mapHas
  cases h : mapGet m (cx, cz) with
  | some c => simp [h]
  | none => simp [h, mapGet_mapSet, hk]

theorem mapHas_ensure_self (gen : Int → Int → Chunk) (m : ChunkMap) (cx cz : Int) :
    mapHas (ensure gen m cx cz) (cx, cz) = true := by
  unfold mapHas
  rw [mapGet_ensure_value]
  rfl

theorem mapHas_ensure_mono (gen : Int → Int → Chunk) (m : ChunkMap) (cx cz : Int)
    (k : Int × Int) (hk : mapHas m k = true) :
    mapHas (ensure gen m cx cz) k = true := by
  by_cases h : k = (cx, cz)
  · subst h; exact mapHas_ensure_self gen m cx cz
  · unfold mapHas
    rw [mapGet_ensure_other gen m cx cz k h]
    exact hk

/-!  Frame facts relating `peek`, `getBlock` and `setBlock`. -/

theorem peek_ensure (gen : Int → Int → Chunk) (m : ChunkMap) (cx cz : Int)
    (x y z : Int) : peek gen ⟨ensure gen m cx cz⟩ x y z = peek gen ⟨m⟩ x y z := by
  unfold peek
  by_cases hy : y < 0 ∨ WORLD_HEIGHT ≤ y
  · simp [hy]
  · simp only [if_neg hy]
    by_cases hk : (chunkCoord x, chunkCoord z) = (cx, cz)
    · have h1 : chunkCoord x = cx := congrArg Prod.fst hk
      have h2 : chunkCoord z = cz := congrArg Prod.snd hk
      rw [h1, h2, mapGet_ensure_value]
      cases h : mapGet m (cx, cz) with
      | some c => simp [h]
      | none => simp [h]
    · rw [mapGet_ensure_other gen m cx cz _ hk]

theorem getBlock_snd (gen : Int → Int → Chunk) (w : World) (x y z : Int) :
    (getBlock gen w x y z).2 = ⟨ensure gen w.chunks (chunkCoord x) (chunkCoord z)⟩ := by
  unfold getBlock
  by_cases hy : y < 0 ∨ WORLD_HEIGHT ≤ y <;> simp [hy]

theorem getBlock_fst (gen : Int → Int → Chunk) (w : World) (x y z : Int) :
    (getBlock gen w x y z).1 = peek gen w x y z := by
  unfold getBlock peek
  by_cases hy : y < 0 ∨ WORLD_HEIGHT ≤ y
  · simp [hy]
  · simp only [if_neg hy]
    rw [mapGet_ensure_value]
    cases h : mapGet w.chunks (chunkCoord x, chunkCoord z) with
    | some c => simp [h]
    | none => simp [h]

theorem peek_getBlock_snd (gen : Int → Int → Chunk) (w : World) (x y z : Int)
    (a b c : Int) : peek gen (getBlock gen w x y z).2 a b c = peek gen w a b c := by
  rw [getBlock_snd]
  have := peek_ensure gen w.chunks (chunkCoord x) (chunkCoord z) a b c
  rw [this]

theorem peek_out_of_range (gen : Int → Int → Chunk) (w : World) (x y z : Int)
    (hy : y < 0 ∨ WORLD_HEIGHT ≤ y) : peek gen w x y z = ⟨.air⟩ := by
  unfold peek
  simp [hy]

theorem peek_setBlock (gen : Int → Int → Chunk) (w : World) (x y z : Int) (blk : Block)
    (a b c : Int) :
    peek gen (setBlock gen w x y z blk) a b c =
      if a = x ∧ b = y ∧ c = z ∧ 0 ≤ y ∧ y < WORLD_HEIGHT then blk
      else peek gen w a b c := by
  unfold setBlock
  by_cases hy : 0 ≤ y ∧ y < WORLD_HEIGHT
  · simp only [if_pos hy]
    by_cases hbr : b < 0 ∨ WORLD_HEIGHT ≤ b
    · rw [peek_out_of_range gen _ a b c hbr, peek_out_of_range gen w a b c hbr]
      rw [if_neg]
      rintro ⟨-, rfl, -, -, h5⟩
      rcases hbr with h | h
      · omega
      · omega
    · unfold peek
      simp only [if_neg hbr]
      by_cases hk : (chunkCoord a, chunkCoord c) = (chunkCoord x, chunkCoord z)
      · have hk1 : chunkCoord a = chunkCoord x := congrArg Prod.fst hk
        have hk2 : chunkCoord c = chunkCoord z := congrArg Prod.snd hk
        rw [hk1, hk2, mapGet_mapSet, if_pos rfl, Option.getD_some, mapGet_ensure_value]
        unfold chunkUpdate
        by_cases hcell :
            (localIndex a).toNat = (localIndex x).toNat ∧ b.toNat = y.toNat ∧
              (localIndex c).toNat = (localIndex z).toNat
        · have hax : a = x := coord_inj hk1 (localIndex_toNat_inj hcell.1)
          have hby : b = y := by
            have hb0 : ¬ (b < 0 ∨ WORLD_HEIGHT ≤ b) := hbr
            have hw : WORLD_HEIGHT = 64 := rfl
            rw [hw] at hb0
            have := hcell.2.1
            omega
          have hcz : c = z := coord_inj hk2 (localIndex_toNat_inj hcell.2.2)
          rw [if_pos hcell, if_pos ⟨hax, hby, hcz, hy.1, hy.2⟩]
        · have hcond : ¬ (a = x ∧ b = y ∧ c = z ∧ 0 ≤ y ∧ y < WORLD_HEIGHT) := by
            rintro ⟨rfl, rfl, rfl, -, -⟩
            exact hcell ⟨rfl, rfl, rfl⟩
          rw [if_neg hcell, if_neg hcond, Option.getD_some]
      · rw [mapGet_mapSet, if_neg hk, mapGet_ensure_other gen _ _ _ _ hk]
        rw [if_neg]
        rintro ⟨rfl, rfl, rfl, -, -⟩
        exact hk rfl
  · simp only [if_neg hy]
    have h1 : peek gen ⟨ensure gen w.chunks (chunkCoord x) (chunkCoord z)⟩ a b c =
        peek gen w a b c := peek_ensure gen w.chunks (chunkCoord x) (chunkCoord z) a b c
    rw [h1, if_neg]
    rintro ⟨-, -, -, h4, h5⟩
    exact hy ⟨h4, h5⟩

/-- C8: for every integer x the floored-modulo local index
`((x % 16) + 16) % 16` lies in [0, 16), together with the chunk
coordinate `floor(x / 16)` it reconstructs x uniquely
(`chunkCoord x * 16 + localIndex x = x`), and in particular x = -1 maps
to local index 15 of chunk coordinate -1. -/
theorem C8_coordinate_wrap :
    ∀ x : Int,
      (0 ≤ localIndex x ∧ localIndex x < 16) ∧
      chunkCoord x * 16 + localIndex x = x ∧
      localIndex (-1) = 15 ∧ chunkCoord (-1) = -1 := by
  intro x
  exact ⟨localIndex_bounds x, chunkCoord_localIndex x, by decide, by decide⟩

/-- C2: for every world coordinate with y in [0, 64) and every voxel v,
`setBlock` followed by `getBlock` at the same coordinate returns v. -/
theorem C2_set_get_round_trip (gen : Int → Int → Chunk) (w : World)
    (x y z : Int) (v : Block) (h0 : 0 ≤ y) (h1 : y < 64) :
    (getBlock gen (setBlock gen w x y z v) x y z).1 = v := by
  have h1' : y < WORLD_HEIGHT := h1
  rw [getBlock_fst, peek_setBlock, if_pos ⟨rfl, rfl, rfl, h0, h1'⟩]

theorem C2_witness :
    (0 : Int) ≤ 3 ∧ (3 : Int) < 64 ∧
    (getBlock genAir (setBlock genAir emptyWorld 5 3 (-7) ⟨.brick⟩) 5 3 (-7)).1 = ⟨.brick⟩ :=
  ⟨by norm_num, by norm_num,
    C2_set_get_round_trip genAir emptyWorld 5 3 (-7) ⟨.brick⟩ (by norm_num) (by norm_num)⟩

/-- C1 counterexample: looking up (0, -1, 0) on a world with an empty
chunk map returns air but does materialize a chunk entry at chunk
coordinate (0, 0), so the chunk map does not stay unchanged as the claim
states. -/
theorem C1_counterexample :
    (getBlock genAir emptyWorld 0 (-1) 0).1 = ⟨.air⟩ ∧
    mapHas emptyWorld.chunks (0, 0) = false ∧
    mapHas (getBlock genAir emptyWorld 0 (-1) 0).2.chunks (0, 0) = true := by
  refine ⟨?_, by decide, ?_⟩
  · rw [getBlock_fst, peek_out_of_range genAir emptyWorld 0 (-1) 0 (Or.inl (by decide))]
  · rw [getBlock_snd]
    exact mapHas_ensure_self genAir emptyWorld.chunks (chunkCoord 0) (chunkCoord 0)

/-- C1 amended: a lookup with y outside [0, 64) always returns air, but
the chunk for the floor-divided chunk coordinate is materialized by the
call (the bounds check runs only after the lazy generation); previously
present chunk entries are all preserved. -/
theorem C1_out_of_range_lookup (gen : Int → Int → Chunk) (w : World)
    (x y z : Int) (hy : y < 0 ∨ 64 ≤ y) :
    (getBlock gen w x y z).1 = ⟨.air⟩ ∧
    mapHas (getBlock gen w x y z).2.chunks (chunkCoord x, chunkCoord z) = true ∧
    ∀ k, mapHas w.chunks k = true → mapHas (getBlock gen w x y z).2.chunks k = true := by
  have hy' : y < 0 ∨ WORLD_HEIGHT ≤ y := hy
  refine ⟨?_, ?_, ?_⟩
  · rw [getBlock_fst, peek_out_of_range gen w x y z hy']
  · rw [getBlock_snd]
    exact mapHas_ensure_self gen w.chunks (chunkCoord x) (chunkCoord z)
  · intro k hk
    rw [getBlock_snd]
    exact mapHas_ensure_mono gen w.chunks (chunkCoord x) (chunkCoord z) k hk

theorem C1_witness :
    ((-1 : Int) < 0 ∨ (64 : Int) ≤ -1) ∧
    (getBlock genAir emptyWorld 7 (-1) 9).1 = ⟨.air⟩ :=
  ⟨Or.inl (by norm_num),
    (C1_out_of_range_lookup genAir emptyWorld 7 (-1) 9 (Or.inl (by norm_num))).1⟩

/-!  Inventory facts. -/

theorem bumpMatch_slotOK {inv inv' : List InventorySlot} {b : BlockType}
    (h : bumpMatch inv b = some inv') (hi : invOK inv) : invOK inv' := by
  induction inv generalizing inv' with
  | nil => simp [bumpMatch] at h
  | cons s rest ih =>
      unfold bumpMatch at h
      by_cases hc : s.type = some b ∧ s.count < 64
      · rw [if_pos hc] at h
        obtain rfl : ({ s with count := s.count + 1 } :: rest) = inv' := Option.some.inj h
        intro t ht
        rcases List.mem_cons.mp ht with rfl | ht
        · have hs := hi s (List.mem_cons_self s rest)
          refine ⟨?_, ?_, ?_⟩
          · constructor
            · intro he; simp at he; rw [he] at hc; simp at hc
            · intro hcnt
              have h0 := hs.2.1
              simp at hcnt
              omega
          · have h0 := hs.2.1; simp; omega
          · have h1 := hc.2; simp; omega
        · exact hi t (List.mem_cons_of_mem s ht)
      · rw [if_neg hc] at h
        rcases Option.map_eq_some'.mp h with ⟨r', hr', rfl⟩
        intro t ht
        rcases List.mem_cons.mp ht with rfl | ht
        · exact hi t (List.mem_cons_self t rest)
        · exact ih hr' (fun u hu => hi u (List.mem_cons_of_mem s hu)) t ht

theorem fillEmpty_slotOK {inv : List InventorySlot} (b : BlockType)
    (hi : invOK inv) : invOK (fillEmpty inv b) := by
  induction inv with
  | nil => simp [fillEmpty]; exact hi
  | cons s rest ih =>
      unfold fillEmpty
      by_cases hc : s.type = none
      · rw [if_pos hc]
        intro t ht
        rcases List.mem_cons.mp ht with rfl | ht
        · exact ⟨by simp, by norm_num, by norm_num⟩
        · exact hi t (List.mem_cons_of_mem s ht)
      · rw [if_neg hc]
        intro t ht
        rcases List.mem_cons.mp ht with rfl | ht
        · exact hi t (List.mem_cons_self t rest)
        · exact ih (fun u hu => hi u (List.mem_cons_of_mem s hu)) t ht

theorem invAfterBreak_invOK (inv : List InventorySlot) (b : BlockType)
    (hi : invOK inv) : invOK (invAfterBreak inv b) := by
  unfold invAfterBreak
  cases h : bumpMatch inv b with
  | some inv' => exact bumpMatch_slotOK h hi
  | none => exact fillEmpty_slotOK b hi

theorem invAfterPlace_invOK (inv : List InventorySlot) (sel : Nat)
    (hi : invOK inv)
    (hg : (inv.getD sel ⟨none, 0⟩).type ≠ none ∧ 0 < (inv.getD sel ⟨none, 0⟩).count) :
    invOK (invAfterPlace inv sel) := by
  unfold invAfterPlace
  cases hq : inv.get? sel with
  | none => exact hi
  | some s =>
      have hgd : inv.getD sel ⟨none, 0⟩ = s := by
        rw [List.getD_eq_getElem?_getD, ← List.get?_eq_getElem?, hq]
        rfl
      rw [hgd] at hg
      have hs : slotOK s := hi s (List.get?_mem hq)
      intro t ht
      rcases List.mem_or_eq_of_mem_set ht with ht' | rfl
      · exact hi t ht'
      · by_cases hz : s.count - 1 = 0
        · rw [if_pos hz]
          exact ⟨by simp [hz], by simp; omega, by simp; omega⟩
        · rw [if_neg hz]
          refine ⟨⟨fun he => absurd he hg.1, fun hc => absurd hc hz⟩, ?_, ?_⟩
          · have := hg.2; simp; omega
          · have := hs.2.2; simp; omega

theorem bumpMatch_eq_none {inv : List InventorySlot} {b : BlockType}
    (h : ∀ s ∈ inv, ¬ (s.type = some b ∧ s.count < 64)) : bumpMatch inv b = none := by
  induction inv with
  | nil => rfl
  | cons s rest ih =>
      unfold bumpMatch
      rw [if_neg (h s (List.mem_cons_self s rest))]
      rw [ih (fun u hu => h u (List.mem_cons_of_mem s hu))]
      rfl

theorem fillEmpty_eq_self {inv : List InventorySlot} (b : BlockType)
    (h : ∀ s ∈ inv, s.type ≠ none) : fillEmpty inv b = inv := by
  induction inv with
  | nil => rfl
  | cons s rest ih =>
      unfold fillEmpty
      rw [if_neg (h s (List.mem_cons_self s rest))]
      rw [ih (fun u hu => h u (List.mem_cons_of_mem s hu))]

/-!  Preservation of the inventory invariant by the block interactions. -/

theorem breakBlock_invOK (gen : Int → Int → Chunk) (rv : Int → Int → Int → ℚ × ℚ)
    (p : PlayerS) (st : GameState) (hi : invOK st.inventory) :
    invOK (breakBlock gen rv p st).inventory := by
  unfold breakBlock
  cases (raycast gen p st.world).1 with
  | none => exact hi
  | some hit =>
      show invOK (breakHit gen rv p st hit (raycast gen p st.world).2).inventory
      unfold breakHit
      by_cases ht : (getBlock gen (raycast gen p st.world).2 hit.x hit.y hit.z).1.type = .tnt
      · rw [if_pos ht]; exact hi
      · rw [if_neg ht]
        by_cases hm : p.mode = .survival
        · simp only [if_pos hm]
          exact invAfterBreak_invOK st.inventory _ hi
        · simp only [if_neg hm]
          exact hi

theorem placeBlock_invOK (gen : Int → Int → Chunk) (p : PlayerS) (st : GameState)
    (hi : invOK st.inventory) : invOK (placeBlock gen p st).inventory := by
  unfold placeBlock
  cases (raycast gen p st.world).1 with
  | none => exact hi
  | some hit =>
      show invOK (placeHit gen p st hit (raycast gen p st.world).2).inventory
      unfold placeHit
      by_cases hg : (st.inventory.getD p.selectedSlot ⟨none, 0⟩).type ≠ none ∧
          0 < (st.inventory.getD p.selectedSlot ⟨none, 0⟩).count
      · rw [if_pos hg]
        by_cases hm : p.mode = .survival
        · simp only [if_pos hm]
          split
          · exact invAfterPlace_invOK st.inventory p.selectedSlot hi hg
          · exact hi
        · simp only [if_neg hm]
          split
          · exact hi
          · exact hi
      · rw [if_neg hg]
        exact hi

/-- C3: starting from any inventory whose slots all satisfy the invariant,
after any sequence of break and place interactions every slot still has
(kind absent iff count 0) and count in [0, 64]. -/
theorem C3_inventory_invariant (gen : Int → Int → Chunk)
    (rv : Int → Int → Int → ℚ × ℚ) (acts : List Action) (st : GameState)
    (hi : invOK st.inventory) : invOK (applyActions gen rv acts st).inventory := by
  induction acts generalizing st with
  | nil => exact hi
  | cons a rest ih =>
      show invOK (applyActions gen rv rest (applyAction gen rv st a)).inventory
      apply ih
      cases a with
      | brk p => exact breakBlock_invOK gen rv p st hi
      | plc p => exact placeBlock_invOK gen p st hi

/-- Concrete state for the inventory-invariant instance. -/
def stInv : GameState := ⟨wStone, [], [⟨some .stone, 64⟩, ⟨none, 0⟩]⟩

theorem C3_witness :
    invOK stInv.inventory ∧
    slotOK ((applyActions genAir rvZero [] stInv).inventory.getD 0 ⟨none, 0⟩) := by
  refine ⟨by decide, ?_⟩
  have h := C3_inventory_invariant genAir rvZero [] stInv (by decide)
  exact h _ (by decide)

/-- C10: a survival-mode break on a non-tnt voxel with an inventory that
has neither a matching slot below 64 nor an empty slot still clears the
voxel while leaving the inventory unchanged: the mined block is lost,
the break is not atomic with the pickup. -/
theorem C10_break_with_full_inventory (gen : Int → Int → Chunk)
    (rv : Int → Int → Int → ℚ × ℚ) (p : PlayerS) (st : GameState) (hit : Hit)
    (h1 : (raycast gen p st.world).1 = some hit)
    (ht : (getBlock gen (raycast gen p st.world).2 hit.x hit.y hit.z).1.type ≠ .tnt)
    (hm : p.mode = .survival)
    (hfull : ∀ s ∈ st.inventory,
      ¬ (s.type = some (getBlock gen (raycast gen p st.world).2 hit.x hit.y hit.z).1.type ∧
          s.count < 64))
    (hempty : ∀ s ∈ st.inventory, s.type ≠ none) :
    (breakBlock gen rv p st).inventory = st.inventory ∧
    peek gen (breakBlock gen rv p st).world hit.x hit.y hit.z = ⟨.air⟩ := by
  have hb : breakBlock gen rv p st = breakHit gen rv p st hit (raycast gen p st.world).2 := by
    unfold breakBlock
    rw [h1]
  rw [hb]
  unfold breakHit
  rw [if_neg ht]
  constructor
  · show (if p.mode = .survival
        then invAfterBreak st.inventory
          (getBlock gen (raycast gen p st.world).2 hit.x hit.y hit.z).1.type
        else st.inventory) = st.inventory
    rw [if_pos hm]
    unfold invAfterBreak
    rw [bumpMatch_eq_none hfull]
    exact fillEmpty_eq_self _ hempty
  · show peek gen
      (setBlock gen (getBlock gen (raycast gen p st.world).2 hit.x hit.y hit.z).2
        hit.x hit.y hit.z ⟨.air⟩) hit.x hit.y hit.z = ⟨.air⟩
    rw [peek_setBlock]
    by_cases hr : hit.y < 0 ∨ WORLD_HEIGHT ≤ hit.y
    · rw [if_neg ?_, peek_getBlock_snd]
      · exact peek_out_of_range gen _ hit.x hit.y hit.z hr
      · rintro ⟨-, -, -, h4, h5⟩
        rcases hr with h | h
        · exact absurd h4 (not_le.mpr h)
        · exact absurd h5 (not_lt.mpr h)
    · push_neg at hr
      rw [if_pos ⟨rfl, rfl, rfl, hr.1, hr.2⟩]

/-- Concrete state for the lost-block instance: a stone voxel in front of
the player and an inventory with no room for stone. -/
def stFull : GameState := ⟨wStone, [], [⟨some .stone, 64⟩, ⟨some .dirt, 64⟩]⟩

set_option maxHeartbeats 2000000 in
set_option maxRecDepth 8000 in
theorem C10_witness :
    (raycast genAir pPlusX stFull.world).1 = some ⟨1, 0, 0, 1⟩ ∧
    (getBlock genAir (raycast genAir pPlusX stFull.world).2 1 0 0).1.type = .stone ∧
    (breakBlock genAir rvZero pPlusX stFull).inventory = stFull.inventory := by
  have h1 : (raycast genAir pPlusX stFull.world).1 = some ⟨1, 0, 0, 1⟩ := by
    norm_num [raycast, raycastAux, faceOf, getBlock, setBlock, ensure, mapGet, mapSet, mapHas,
      chunkCoord_eq_ediv, localIndex_eq_emod, chunkUpdate, genAir, junkChunk, emptyWorld,
      wStone, stFull, pPlusX, CHUNK_SIZE, WORLD_HEIGHT]
    simp
  have ht : (getBlock genAir (raycast genAir pPlusX stFull.world).2 1 0 0).1.type = .stone := by
    norm_num [raycast, raycastAux, faceOf, getBlock, setBlock, ensure, mapGet, mapSet, mapHas,
      chunkCoord_eq_ediv, localIndex_eq_emod, chunkUpdate, genAir, junkChunk, emptyWorld,
      wStone, stFull, pPlusX, CHUNK_SIZE, WORLD_HEIGHT]
  refine ⟨h1, ht, ?_⟩
  refine (C10_break_with_full_inventory genAir rvZero pPlusX stFull ⟨1, 0, 0, 1⟩ h1
    ?_ rfl ?_ ?_).1
  · show (getBlock genAir (raycast genAir pPlusX stFull.world).2 1 0 0).1.type ≠ .tnt
    rw [ht]
    decide
  · intro s hs
    show ¬ (s.type =
        some (getBlock genAir (raycast genAir pPlusX stFull.world).2 1 0 0).1.type ∧
      s.count < 64)
    rw [ht]
    have hs2 : s = ⟨some .stone, 64⟩ ∨ s = ⟨some .dirt, 64⟩ := by
      simpa [stFull] using hs
    rcases hs2 with rfl | rfl <;> decide
  · intro s hs
    have hs2 : s = ⟨some .stone, 64⟩ ∨ s = ⟨some .dirt, 64⟩ := by
      simpa [stFull] using hs
    rcases hs2 with rfl | rfl <;> decide

/-!  Facts about the pick-ray march. -/

theorem peek_raycastAux (gen : Int → Int → Chunk) (p : PlayerS) :
    ∀ fuel i w a b c,
      peek gen (raycastAux gen p i fuel w).2 a b c = peek gen w a b c := by
  intro fuel
  induction fuel with
  | zero => intro i w a b c; rfl
  | succ n ih =>
      intro i w a b c
      simp only [raycastAux]
      split
      · exact peek_getBlock_snd gen w _ _ _ a b c
      · rw [ih]
        exact peek_getBlock_snd gen w _ _ _ a b c

theorem peek_raycast_snd (gen : Int → Int → Chunk) (p : PlayerS) (w : World)
    (a b c : Int) : peek gen (raycast gen p w).2 a b c = peek gen w a b c :=
  peek_raycastAux gen p 50 0 w a b c

theorem faceOf_same_yz (p : PlayerS) (x y z px : Int) (hX : 0 < p.dirX) :
    faceOf p x y z px y z = if px = x then 0 else 1 := by
  unfold faceOf
  by_cases h : px = x
  · simp [h]
  · simp [h, hX]

theorem raycastAux_face_posX (gen : Int → Int → Chunk) (p : PlayerS)
    (hY : p.dirY = 0) (hZ : p.dirZ = 0) (hX : 0 < p.dirX) :
    ∀ fuel i w hit w', raycastAux gen p i fuel w = (some hit, w') →
      hit.face = 0 ∨ hit.face = 1 := by
  intro fuel
  induction fuel with
  | zero =>
      intro i w hit w' h
      exact absurd (congrArg Prod.fst h) (by simp [raycastAux])
  | succ n ih =>
      intro i w hit w' h
      simp only [raycastAux] at h
      split at h
      · simp only [Prod.mk.injEq, Option.some_inj] at h
        obtain ⟨rfl, hw⟩ := h
        show faceOf p _ _ _ _ _ _ = 0 ∨ faceOf p _ _ _ _ _ _ = 1
        simp only [hY, hZ, zero_mul, add_zero]
        rw [faceOf_same_yz p _ _ _ _ hX]
        by_cases hpx : ⌊p.x + p.dirX * ((i : ℚ) * (1 / 10) - 1 / 10)⌋ =
            ⌊p.x + p.dirX * ((i : ℚ) * (1 / 10))⌋
        · rw [if_pos hpx]; left; rfl
        · rw [if_neg hpx]; right; rfl
      · exact ih _ _ _ _ h

set_option maxHeartbeats 2000000 in
set_option maxRecDepth 8000 in
/-- C5 counterexample: player at (0.95, 0.5, 0.5) looking along +x, a
stone voxel at (1, 0, 0): the ray first enters the voxel at march step 1
(distance 0.1 < 0.2) and the raycast reports face 1, whose placement
offset is (+1, 0, 0): placement lands at x + 1 = 2, not at x - 1 = 0 as
the claim states. -/
theorem C5_counterexample :
    (raycast genAir pPlusX wStone).1 = some ⟨1, 0, 0, 1⟩ ∧
    faceOffsets.getD 1 (0, 0, 0) = (1, 0, 0) ∧
    ((1 : Int) + 1 ≠ 1 - 1) := by
  refine ⟨?_, by decide, by decide⟩
  norm_num [raycast, raycastAux, faceOf, getBlock, setBlock, ensure, mapGet, mapSet, mapHas,
    chunkCoord_eq_ediv, localIndex_eq_emod, chunkUpdate, genAir, junkChunk, emptyWorld,
    wStone, pPlusX, CHUNK_SIZE, WORLD_HEIGHT]
  simp

/-- C5 amended: a pick ray cast along the +x axis (dirY = dirZ = 0,
dirX > 0) reports face 1 whenever a voxel boundary was crossed and the
same-voxel pseudo-face 0 otherwise; it never reports face 2, so the
reported placement offset is never (-1, 0, 0): placement from such a hit
goes to x + 1 (the far side along the travel direction), not to x - 1. -/
theorem C5_plus_x_face (gen : Int → Int → Chunk) (p : PlayerS) (w : World) (hit : Hit)
    (hY : p.dirY = 0) (hZ : p.dirZ = 0) (hX : 0 < p.dirX)
    (h : (raycast gen p w).1 = some hit) :
    (hit.face = 0 ∨ hit.face = 1) ∧ faceOffsets.getD hit.face (0, 0, 0) ≠ (-1, 0, 0) := by
  have hp : raycast gen p w = (some hit, (raycast gen p w).2) := by rw [← h]
  have hf := raycastAux_face_posX gen p hY hZ hX 50 0 w hit (raycast gen p w).2 hp
  refine ⟨hf, ?_⟩
  rcases hf with hf | hf <;> rw [hf] <;> decide

set_option maxHeartbeats 2000000 in
set_option maxRecDepth 8000 in
theorem C5_witness :
    pPlusX.dirY = 0 ∧ pPlusX.dirZ = 0 ∧ 0 < pPlusX.dirX ∧
    (raycast genAir pPlusX wStone).1 = some ⟨1, 0, 0, 1⟩ ∧
    ((⟨1, 0, 0, 1⟩ : Hit).face = 0 ∨ (⟨1, 0, 0, 1⟩ : Hit).face = 1) := by
  have h : (raycast genAir pPlusX wStone).1 = some ⟨1, 0, 0, 1⟩ := by
    norm_num [raycast, raycastAux, faceOf, getBlock, setBlock, ensure, mapGet, mapSet, mapHas,
      chunkCoord_eq_ediv, localIndex_eq_emod, chunkUpdate, genAir, junkChunk, emptyWorld,
      wStone, pPlusX, CHUNK_SIZE, WORLD_HEIGHT]
    simp
  exact ⟨rfl, rfl, by norm_num [pPlusX],
    h, (C5_plus_x_face genAir pPlusX wStone ⟨1, 0, 0, 1⟩ rfl rfl (by norm_num [pPlusX]) h).1⟩

/-- C7: a primary break whose pick ray hits a tnt voxel ignites it
instead of mining it: the voxel becomes air, one armed entity with fuse
80 is appended at the voxel center, and the inventory is untouched. -/
theorem C7_break_ignites_tnt (gen : Int → Int → Chunk)
    (rv : Int → Int → Int → ℚ × ℚ) (p : PlayerS) (st : GameState) (hit : Hit)
    (h1 : (raycast gen p st.world).1 = some hit)
    (ht : (getBlock gen (raycast gen p st.world).2 hit.x hit.y hit.z).1.type = .tnt) :
    (breakBlock gen rv p st).inventory = st.inventory ∧
    (breakBlock gen rv p st).entities =
      st.entities ++
        [{ x := (hit.x : ℚ) + 1/2, y := (hit.y : ℚ) + 1/2, z := (hit.z : ℚ) + 1/2,
           velX := ((rv hit.x hit.y hit.z).1 - 1/2) * (1/50), velY := 1/5,
           velZ := ((rv hit.x hit.y hit.z).2 - 1/2) * (1/50), fuse := 80 }] ∧
    peek gen (breakBlock gen rv p st).world hit.x hit.y hit.z = ⟨.air⟩ := by
  have hb : breakBlock gen rv p st = breakHit gen rv p st hit (raycast gen p st.world).2 := by
    unfold breakBlock
    rw [h1]
  rw [hb]
  unfold breakHit
  rw [if_pos ht]
  refine ⟨rfl, rfl, ?_⟩
  show peek gen
    (setBlock gen (getBlock gen (raycast gen p st.world).2 hit.x hit.y hit.z).2
      hit.x hit.y hit.z ⟨.air⟩) hit.x hit.y hit.z = ⟨.air⟩
  rw [peek_setBlock]
  by_cases hr : hit.y < 0 ∨ WORLD_HEIGHT ≤ hit.y
  · rw [if_neg ?_, peek_getBlock_snd]
    · exact peek_out_of_range gen _ hit.x hit.y hit.z hr
    · rintro ⟨-, -, -, h4, h5⟩
      rcases hr with h | h
      · exact absurd h4 (not_le.mpr h)
      · exact absurd h5 (not_lt.mpr h)
  · push_neg at hr
    rw [if_pos ⟨rfl, rfl, rfl, hr.1, hr.2⟩]

/-- Concrete state for the tnt-ignition instance. -/
def stTNT : GameState := ⟨wTNT, [], [⟨none, 0⟩]⟩

set_option maxHeartbeats 2000000 in
set_option maxRecDepth 8000 in
theorem C7_witness :
    (raycast genAir pPlusX stTNT.world).1 = some ⟨1, 0, 0, 1⟩ ∧
    (getBlock genAir (raycast genAir pPlusX stTNT.world).2 1 0 0).1.type = .tnt ∧
    (breakBlock genAir rvZero pPlusX stTNT).inventory = stTNT.inventory := by
  have h1 : (raycast genAir pPlusX stTNT.world).1 = some ⟨1, 0, 0, 1⟩ := by
    norm_num [raycast, raycastAux, faceOf, getBlock, setBlock, ensure, mapGet, mapSet, mapHas,
      chunkCoord_eq_ediv, localIndex_eq_emod, chunkUpdate, genAir, junkChunk, emptyWorld,
      wTNT, stTNT, pPlusX, CHUNK_SIZE, WORLD_HEIGHT]
    simp
  have ht : (getBlock genAir (raycast genAir pPlusX stTNT.world).2 1 0 0).1.type = .tnt := by
    norm_num [raycast, raycastAux, faceOf, getBlock, setBlock, ensure, mapGet, mapSet, mapHas,
      chunkCoord_eq_ediv, localIndex_eq_emod, chunkUpdate, genAir, junkChunk, emptyWorld,
      wTNT, stTNT, pPlusX, CHUNK_SIZE, WORLD_HEIGHT]
  exact ⟨h1, ht, (C7_break_ignites_tnt genAir rvZero pPlusX stTNT ⟨1, 0, 0, 1⟩ h1 ht).1⟩

/-- C9: when the pick ray hits and the placement coordinate (hit plus
face offset) lies inside the floored player bounding box, `placeBlock`
leaves both the voxel content of the world and the inventory unchanged. -/
theorem C9_no_place_inside_player (gen : Int → Int → Chunk) (p : PlayerS)
    (st : GameState) (hit : Hit)
    (h1 : (raycast gen p st.world).1 = some hit)
    (hin : ⌊p.x - 3/10⌋ ≤ hit.x + (faceOffsets.getD hit.face (0, 0, 0)).1 ∧
           hit.x + (faceOffsets.getD hit.face (0, 0, 0)).1 ≤ ⌊p.x + 3/10⌋ ∧
           ⌊p.y - 9/5⌋ ≤ hit.y + (faceOffsets.getD hit.face (0, 0, 0)).2.1 ∧
           hit.y + (faceOffsets.getD hit.face (0, 0, 0)).2.1 ≤ ⌊p.y + 1/5⌋ ∧
           ⌊p.z - 3/10⌋ ≤ hit.z + (faceOffsets.getD hit.face (0, 0, 0)).2.2 ∧
           hit.z + (faceOffsets.getD hit.face (0, 0, 0)).2.2 ≤ ⌊p.z + 3/10⌋) :
    (placeBlock gen p st).inventory = st.inventory ∧
    ∀ a b c, peek gen (placeBlock gen p st).world a b c = peek gen st.world a b c := by
  have hp : placeBlock gen p st = placeHit gen p st hit (raycast gen p st.world).2 := by
    unfold placeBlock
    rw [h1]
  rw [hp]
  unfold placeHit
  by_cases hg : (st.inventory.getD p.selectedSlot ⟨none, 0⟩).type ≠ none ∧
      0 < (st.inventory.getD p.selectedSlot ⟨none, 0⟩).count
  · rw [if_pos hg, if_neg ?_]
    · exact ⟨rfl, fun a b c => peek_raycast_snd gen p st.world a b c⟩
    · obtain ⟨ha1, ha2, hb1, hb2, hc1, hc2⟩ := hin
      rintro (h | h | h | h | h | h) <;> omega
  · rw [if_neg hg]
    exact ⟨rfl, fun a b c => peek_raycast_snd gen p st.world a b c⟩

/-- Concrete state for the in-box placement instance: the player stands
inside the voxel column of the hit voxel, so the face-0 placement
coordinate falls inside the player box. -/
def stEye : GameState := ⟨wStoneEye, [], [⟨some .dirt, 5⟩]⟩

set_option maxHeartbeats 2000000 in
set_option maxRecDepth 8000 in
theorem C9_witness :
    (raycast genAir pInside stEye.world).1 = some ⟨0, 1, 0, 0⟩ ∧
    (placeBlock genAir pInside stEye).inventory = stEye.inventory ∧
    peek genAir (placeBlock genAir pInside stEye).world 0 1 0 =
      peek genAir stEye.world 0 1 0 := by
  have h1 : (raycast genAir pInside stEye.world).1 = some ⟨0, 1, 0, 0⟩ := by
    norm_num [raycast, raycastAux, faceOf, getBlock, setBlock, ensure, mapGet, mapSet, mapHas,
      chunkCoord_eq_ediv, localIndex_eq_emod, chunkUpdate, genAir, junkChunk, emptyWorld,
      wStoneEye, stEye, pInside, CHUNK_SIZE, WORLD_HEIGHT]
    simp
  have hin := C9_no_place_inside_player genAir pInside stEye ⟨0, 1, 0, 0⟩ h1 ?_
  · exact ⟨h1, hin.1, hin.2 0 1 0⟩
  · refine ⟨?_, ?_, ?_, ?_, ?_, ?_⟩ <;>
      norm_num [faceOffsets, pInside]

/-!  Facts about the per-entity TNT tick. -/

/-- Default entity used only to read off list elements in concrete
instances. -/
def dfltEnt : TNTEntity := ⟨0, 0, 0, 0, 0, 0, 0⟩

set_option maxHeartbeats 1000000 in
set_option maxRecDepth 8000 in
/-- C6 counterexample: an entity at rest at height 10.5 over a water
surface (water up to height 9, air above). The voxel below the entity is
water, so by the claim the entity is in free fall this tick and keeps
vertical velocity -0.02; the source instead treats any non-air voxel as
ground, reads it at floor(y - 0.5), and zeroes the vertical velocity. -/
theorem C6_counterexample :
    ((tntStep genWaterBelow rvZero rdZero (emptyWorld, []) tOverWater).2.getD 0 dfltEnt).velY = 0 ∧
    ((claimedTntStep genWaterBelow rvZero rdZero (emptyWorld, []) tOverWater).2.getD 0 dfltEnt).velY = -(1/50) ∧
    (getBlock genWaterBelow emptyWorld 0 9 0).1.type = .water ∧
    ((0 : ℚ) ≠ -(1/50)) := by
  refine ⟨?_, ?_, ?_, by norm_num⟩ <;>
    (norm_num [tntStep, claimedTntStep, getBlock, setBlock, ensure, mapGet, mapSet, mapHas,
      chunkCoord_eq_ediv, localIndex_eq_emod, chunkUpdate, genWaterBelow, junkChunk,
      emptyWorld, tOverWater, rvZero, rdZero, dfltEnt, CHUNK_SIZE, WORLD_HEIGHT]
     try simp)

/-- C6 amended: for an entity whose fuse is still positive after the
decrement (fuse at least 2), the tick decrements the fuse, subtracts the
gravity constant 0.02 from the vertical velocity, adds the velocity to
the position, and then, when the voxel read half a unit below the moved
center, at floor(y - 0.5), is not air (water counts as ground), zeroes
the vertical velocity, multiplies both horizontal velocity components by
the friction factor 0.8, and snaps the center to floor(y) + 0.5;
otherwise the integrated state is kept. The world content is unchanged
either way. -/
theorem C6_tnt_tick (gen : Int → Int → Chunk) (rv : Int → Int → Int → ℚ × ℚ)
    (rd : Int → Int → Int → ℚ) (w : World) (es : List TNTEntity) (t : TNTEntity)
    (hf : 2 ≤ t.fuse) :
    (tntStep gen rv rd (w, es) t).2 =
      es ++ [if (peek gen w ⌊t.x + t.velX⌋ ⌊t.y + (t.velY - 1/50) - 1/2⌋ ⌊t.z + t.velZ⌋).type ≠ .air
        then { x := t.x + t.velX, y := (⌊t.y + (t.velY - 1/50)⌋ : ℚ) + 1/2, z := t.z + t.velZ,
               velX := t.velX * (4/5), velY := 0, velZ := t.velZ * (4/5), fuse := t.fuse - 1 }
        else { x := t.x + t.velX, y := t.y + (t.velY - 1/50), z := t.z + t.velZ,
               velX := t.velX, velY := t.velY - 1/50, velZ := t.velZ, fuse := t.fuse - 1 }] ∧
    ∀ a b c, peek gen (tntStep gen rv rd (w, es) t).1 a b c = peek gen w a b c := by
  constructor
  · simp only [tntStep]
    rw [if_neg (show ¬ t.fuse - 1 ≤ 0 by omega), getBlock_fst]
    split
    · rfl
    · rfl
  · intro a b c
    simp only [tntStep]
    rw [if_neg (show ¬ t.fuse - 1 ≤ 0 by omega)]
    split
    · exact peek_getBlock_snd gen w _ _ _ a b c
    · exact peek_getBlock_snd gen w _ _ _ a b c

theorem C6_witness :
    (2 : Int) ≤ tOverStone.fuse ∧
    peek genAir (tntStep genAir rvZero rdZero (wStoneFloor, []) tOverStone).1 0 9 0 =
      peek genAir wStoneFloor 0 9 0 :=
  ⟨by norm_num [tOverStone],
    (C6_tnt_tick genAir rvZero rdZero wStoneFloor [] tOverStone
      (by norm_num [tOverStone])).2 0 9 0⟩

/-!  Facts about the detonation sweep. -/

theorem fst_pair (A : World) (B : List TNTEntity) : ((A, B)).1 = A := rfl

theorem snd_pair (A : World) (B : List TNTEntity) : ((A, B)).2 = B := rfl

theorem sq_le_four {a : Int} (h : a * a ≤ 16) : -4 ≤ a ∧ a ≤ 4 := by
  constructor <;> nlinarith

theorem mem_offsetRange {a : Int} (h1 : -4 ≤ a) (h2 : a ≤ 4) : a ∈ offsetRange := by
  unfold offsetRange
  have h : a = -4 ∨ a = -3 ∨ a = -2 ∨ a = -1 ∨ a = 0 ∨ a = 1 ∨ a = 2 ∨ a = 3 ∨ a = 4 := by
    omega
  rcases h with rfl | rfl | rfl | rfl | rfl | rfl | rfl | rfl | rfl <;> decide

theorem mem_offsetGrid {dx dy dz : Int}
    (h1 : -4 ≤ dx) (h2 : dx ≤ 4) (h3 : -4 ≤ dy) (h4 : dy ≤ 4)
    (h5 : -4 ≤ dz) (h6 : dz ≤ 4) : (dx, dy, dz) ∈ offsetGrid := by
  unfold offsetGrid
  apply List.mem_flatMap.mpr
  refine ⟨dx, mem_offsetRange h1 h2, ?_⟩
  apply List.mem_flatMap.mpr
  refine ⟨dy, mem_offsetRange h3 h4, ?_⟩
  apply List.mem_map.mpr
  exact ⟨dz, mem_offsetRange h5 h6, rfl⟩

theorem explodeOutcome_idem (b : Block) (q : ℚ) (n : Int) :
    explodeOutcome (explodeOutcome b q n) q n = explodeOutcome b q n := by
  unfold explodeOutcome
  split_ifs <;> simp_all

theorem htgt_iff (X Y Z a b c : Int) (d : Int × Int × Int) :
    (a = X + d.1 ∧ b = Y + d.2.1 ∧ c = Z + d.2.2) ↔ (a - X, b - Y, c - Z) = d := by
  obtain ⟨d1, d2, d3⟩ := d
  simp only [Prod.mk.injEq]
  omega

theorem peek_explodeStep (gen : Int → Int → Chunk) (rv : Int → Int → Int → ℚ × ℚ)
    (rd : Int → Int → Int → ℚ) (x y z : ℚ) (st : World × List TNTEntity)
    (d : Int × Int × Int) (a b c : Int) :
    peek gen (explodeStep gen rv rd x y z st d).1 a b c =
      if (a = ⌊x⌋ + d.1 ∧ b = ⌊y⌋ + d.2.1 ∧ c = ⌊z⌋ + d.2.2) ∧
          d.1 * d.1 + d.2.1 * d.2.1 + d.2.2 * d.2.2 ≤ 16 then
        explodeOutcome (peek gen st.1 a b c) (rd d.1 d.2.1 d.2.2)
          (d.1 * d.1 + d.2.1 * d.2.1 + d.2.2 * d.2.2)
      else peek gen st.1 a b c := by
  simp only [explodeStep]
  by_cases hn : d.1 * d.1 + d.2.1 * d.2.1 + d.2.2 * d.2.2 ≤ 16
  case neg =>
    rw [if_neg hn, if_neg (fun hh => hn hh.2)]
  case pos =>
    rw [if_pos hn, Int.floor_add_int x d.1, Int.floor_add_int y d.2.1,
      Int.floor_add_int z d.2.2]
    by_cases h1 :
        (getBlock gen st.1 (⌊x⌋ + d.1) (⌊y⌋ + d.2.1) (⌊z⌋ + d.2.2)).1.type = BlockType.tnt
    · rw [if_pos h1]
      have hpk : (peek gen st.1 (⌊x⌋ + d.1) (⌊y⌋ + d.2.1) (⌊z⌋ + d.2.2)).type =
          BlockType.tnt := by
        rw [← getBlock_fst]; exact h1
      simp only [igniteTNT, fst_pair]
      rw [peek_setBlock, peek_getBlock_snd]
      by_cases htgt : a = ⌊x⌋ + d.1 ∧ b = ⌊y⌋ + d.2.1 ∧ c = ⌊z⌋ + d.2.2
      · obtain ⟨rfl, rfl, rfl⟩ := htgt
        have hrange : 0 ≤ ⌊y⌋ + d.2.1 ∧ ⌊y⌋ + d.2.1 < WORLD_HEIGHT := by
          by_contra hr
          rcases not_and_or.mp hr with h' | h'
          · rw [peek_out_of_range gen st.1 (⌊x⌋ + d.1) (⌊y⌋ + d.2.1) (⌊z⌋ + d.2.2)
              (Or.inl (by omega))] at hpk
            exact absurd hpk (by decide)
          · rw [peek_out_of_range gen st.1 (⌊x⌋ + d.1) (⌊y⌋ + d.2.1) (⌊z⌋ + d.2.2)
              (Or.inr (not_lt.mp h'))] at hpk
            exact absurd hpk (by decide)
        rw [if_pos ⟨rfl, rfl, rfl, hrange.1, hrange.2⟩, if_pos ⟨⟨rfl, rfl, rfl⟩, hn⟩]
        unfold explodeOutcome
        rw [if_pos hpk]
      · have hA : ¬ (a = ⌊x⌋ + d.1 ∧ b = ⌊y⌋ + d.2.1 ∧ c = ⌊z⌋ + d.2.2 ∧
            0 ≤ ⌊y⌋ + d.2.1 ∧ ⌊y⌋ + d.2.1 < WORLD_HEIGHT) :=
          fun hh => htgt ⟨hh.1, hh.2.1, hh.2.2.1⟩
        have hB : ¬ ((a = ⌊x⌋ + d.1 ∧ b = ⌊y⌋ + d.2.1 ∧ c = ⌊z⌋ + d.2.2) ∧
            d.1 * d.1 + d.2.1 * d.2.1 + d.2.2 * d.2.2 ≤ 16) :=
          fun hh => htgt hh.1
        rw [if_neg hA, if_neg hB]
    · rw [if_neg h1]
      have hpkt : ¬ (peek gen st.1 (⌊x⌋ + d.1) (⌊y⌋ + d.2.1) (⌊z⌋ + d.2.2)).type =
          BlockType.tnt := by
        rw [← getBlock_fst]; exact h1
      by_cases h2 :
          (getBlock gen st.1 (⌊x⌋ + d.1) (⌊y⌋ + d.2.1) (⌊z⌋ + d.2.2)).1.type ≠ BlockType.air ∧
            destroys (rd d.1 d.2.1 d.2.2) (d.1 * d.1 + d.2.1 * d.2.1 + d.2.2 * d.2.2) = true
      · rw [if_pos h2]
        have hpk : (peek gen st.1 (⌊x⌋ + d.1) (⌊y⌋ + d.2.1) (⌊z⌋ + d.2.2)).type ≠
            BlockType.air := by
          rw [← getBlock_fst]; exact h2.1
        simp only [fst_pair]
        rw [peek_setBlock, peek_getBlock_snd]
        by_cases htgt : a = ⌊x⌋ + d.1 ∧ b = ⌊y⌋ + d.2.1 ∧ c = ⌊z⌋ + d.2.2
        · obtain ⟨rfl, rfl, rfl⟩ := htgt
          have hrange : 0 ≤ ⌊y⌋ + d.2.1 ∧ ⌊y⌋ + d.2.1 < WORLD_HEIGHT := by
            by_contra hr
            rcases not_and_or.mp hr with h' | h'
            · refine absurd ?_ hpk
              rw [peek_out_of_range gen st.1 (⌊x⌋ + d.1) (⌊y⌋ + d.2.1) (⌊z⌋ + d.2.2)
                (Or.inl (by omega))]
            · refine absurd ?_ hpk
              rw [peek_out_of_range gen st.1 (⌊x⌋ + d.1) (⌊y⌋ + d.2.1) (⌊z⌋ + d.2.2)
                (Or.inr (not_lt.mp h'))]
          rw [if_pos ⟨rfl, rfl, rfl, hrange.1, hrange.2⟩, if_pos ⟨⟨rfl, rfl, rfl⟩, hn⟩]
          unfold explodeOutcome
          rw [if_neg hpkt, if_pos ⟨hpk, h2.2⟩]
        · have hA : ¬ (a = ⌊x⌋ + d.1 ∧ b = ⌊y⌋ + d.2.1 ∧ c = ⌊z⌋ + d.2.2 ∧
              0 ≤ ⌊y⌋ + d.2.1 ∧ ⌊y⌋ + d.2.1 < WORLD_HEIGHT) :=
            fun hh => htgt ⟨hh.1, hh.2.1, hh.2.2.1⟩
          have hB : ¬ ((a = ⌊x⌋ + d.1 ∧ b = ⌊y⌋ + d.2.1 ∧ c = ⌊z⌋ + d.2.2) ∧
              d.1 * d.1 + d.2.1 * d.2.1 + d.2.2 * d.2.2 ≤ 16) :=
            fun hh => htgt hh.1
          rw [if_neg hA, if_neg hB]
      · rw [if_neg h2]
        rw [getBlock_fst] at h2
        simp only [fst_pair]
        rw [peek_getBlock_snd]
        by_cases htgt : a = ⌊x⌋ + d.1 ∧ b = ⌊y⌋ + d.2.1 ∧ c = ⌊z⌋ + d.2.2
        · obtain ⟨rfl, rfl, rfl⟩ := htgt
          rw [if_pos ⟨⟨rfl, rfl, rfl⟩, hn⟩]
          unfold explodeOutcome
          rw [if_neg hpkt, if_neg h2]
        · have hB : ¬ ((a = ⌊x⌋ + d.1 ∧ b = ⌊y⌋ + d.2.1 ∧ c = ⌊z⌋ + d.2.2) ∧
              d.1 * d.1 + d.2.1 * d.2.1 + d.2.2 * d.2.2 ≤ 16) :=
            fun hh => htgt hh.1
          rw [if_neg hB]

theorem peek_explodeFold (gen : Int → Int → Chunk) (rv : Int → Int → Int → ℚ × ℚ)
    (rd : Int → Int → Int → ℚ) (x y z : ℚ) :
    ∀ (ds : List (Int × Int × Int)) (st : World × List TNTEntity) (a b c : Int),
      peek gen (ds.foldl (explodeStep gen rv rd x y z) st).1 a b c =
        if (a - ⌊x⌋, b - ⌊y⌋, c - ⌊z⌋) ∈ ds ∧
            (a - ⌊x⌋) * (a - ⌊x⌋) + (b - ⌊y⌋) * (b - ⌊y⌋) + (c - ⌊z⌋) * (c - ⌊z⌋) ≤ 16 then
          explodeOutcome (peek gen st.1 a b c) (rd (a - ⌊x⌋) (b - ⌊y⌋) (c - ⌊z⌋))
            ((a - ⌊x⌋) * (a - ⌊x⌋) + (b - ⌊y⌋) * (b - ⌊y⌋) + (c - ⌊z⌋) * (c - ⌊z⌋))
        else peek gen st.1 a b c := by
  intro ds
  induction ds with
  | nil => intro st a b c; simp
  | cons d rest ih =>
      intro st a b c
      rw [List.foldl_cons, ih (explodeStep gen rv rd x y z st d) a b c, peek_explodeStep]
      by_cases hd : (a - ⌊x⌋, b - ⌊y⌋, c - ⌊z⌋) = d
      · have hc1 : d.1 = a - ⌊x⌋ := by rw [← hd]
        have hc2 : d.2.1 = b - ⌊y⌋ := by rw [← hd]
        have hc3 : d.2.2 = c - ⌊z⌋ := by rw [← hd]
        rw [hc1, hc2, hc3]
        have htrue : a = ⌊x⌋ + (a - ⌊x⌋) ∧ b = ⌊y⌋ + (b - ⌊y⌋) ∧ c = ⌊z⌋ + (c - ⌊z⌋) := by
          omega
        by_cases hn : (a - ⌊x⌋) * (a - ⌊x⌋) + (b - ⌊y⌋) * (b - ⌊y⌋) +
            (c - ⌊z⌋) * (c - ⌊z⌋) ≤ 16
        · have hinner : (a = ⌊x⌋ + (a - ⌊x⌋) ∧ b = ⌊y⌋ + (b - ⌊y⌋) ∧
              c = ⌊z⌋ + (c - ⌊z⌋)) ∧
              (a - ⌊x⌋) * (a - ⌊x⌋) + (b - ⌊y⌋) * (b - ⌊y⌋) +
                (c - ⌊z⌋) * (c - ⌊z⌋) ≤ 16 := ⟨htrue, hn⟩
          have houter : ((a - ⌊x⌋, b - ⌊y⌋, c - ⌊z⌋) : Int × Int × Int) ∈ d :: rest ∧
              (a - ⌊x⌋) * (a - ⌊x⌋) + (b - ⌊y⌋) * (b - ⌊y⌋) +
                (c - ⌊z⌋) * (c - ⌊z⌋) ≤ 16 := ⟨hd ▸ List.mem_cons_self _ _, hn⟩
          rw [if_pos hinner, if_pos houter]
          by_cases hrest : ((a - ⌊x⌋, b - ⌊y⌋, c - ⌊z⌋) : Int × Int × Int) ∈ rest
          · have hmid : ((a - ⌊x⌋, b - ⌊y⌋, c - ⌊z⌋) : Int × Int × Int) ∈ rest ∧
                (a - ⌊x⌋) * (a - ⌊x⌋) + (b - ⌊y⌋) * (b - ⌊y⌋) +
                  (c - ⌊z⌋) * (c - ⌊z⌋) ≤ 16 := ⟨hrest, hn⟩
            rw [if_pos hmid, explodeOutcome_idem]
          · have hmid : ¬ (((a - ⌊x⌋, b - ⌊y⌋, c - ⌊z⌋) : Int × Int × Int) ∈ rest ∧
                (a - ⌊x⌋) * (a - ⌊x⌋) + (b - ⌊y⌋) * (b - ⌊y⌋) +
                  (c - ⌊z⌋) * (c - ⌊z⌋) ≤ 16) := fun hh => hrest hh.1
            rw [if_neg hmid]
        · have hn1 : ¬ ((a = ⌊x⌋ + (a - ⌊x⌋) ∧ b = ⌊y⌋ + (b - ⌊y⌋) ∧
              c = ⌊z⌋ + (c - ⌊z⌋)) ∧
              (a - ⌊x⌋) * (a - ⌊x⌋) + (b - ⌊y⌋) * (b - ⌊y⌋) +
                (c - ⌊z⌋) * (c - ⌊z⌋) ≤ 16) := fun hh => hn hh.2
          have hn2 : ¬ (((a - ⌊x⌋, b - ⌊y⌋, c - ⌊z⌋) : Int × Int × Int) ∈ rest ∧
              (a - ⌊x⌋) * (a - ⌊x⌋) + (b - ⌊y⌋) * (b - ⌊y⌋) +
                (c - ⌊z⌋) * (c - ⌊z⌋) ≤ 16) := fun hh => hn hh.2
          have hn3 : ¬ (((a - ⌊x⌋, b - ⌊y⌋, c - ⌊z⌋) : Int × Int × Int) ∈ d :: rest ∧
              (a - ⌊x⌋) * (a - ⌊x⌋) + (b - ⌊y⌋) * (b - ⌊y⌋) +
                (c - ⌊z⌋) * (c - ⌊z⌋) ≤ 16) := fun hh => hn hh.2
          rw [if_neg hn1, if_neg hn2, if_neg hn3]
      · have hfalse : ¬ ((a = ⌊x⌋ + d.1 ∧ b = ⌊y⌋ + d.2.1 ∧ c = ⌊z⌋ + d.2.2) ∧
            d.1 * d.1 + d.2.1 * d.2.1 + d.2.2 * d.2.2 ≤ 16) :=
          fun hh => hd ((htgt_iff ⌊x⌋ ⌊y⌋ ⌊z⌋ a b c d).mp hh.1)
        rw [if_neg hfalse]
        simp only [List.mem_cons, hd, false_or]

theorem explodeStep_entities_mono (gen : Int → Int → Chunk)
    (rv : Int → Int → Int → ℚ × ℚ) (rd : Int → Int → Int → ℚ) (x y z : ℚ)
    (st : World × List TNTEntity) (d : Int × Int × Int) (e : TNTEntity)
    (he : e ∈ st.2) : e ∈ (explodeStep gen rv rd x y z st d).2 := by
  simp only [explodeStep]
  split
  · split
    · simp only [igniteTNT, snd_pair]
      exact List.mem_append_left _ he
    · split
      · exact he
      · exact he
  · exact he

theorem explodeFold_entities_mono (gen : Int → Int → Chunk)
    (rv : Int → Int → Int → ℚ × ℚ) (rd : Int → Int → Int → ℚ) (x y z : ℚ) :
    ∀ (ds : List (Int × Int × Int)) (st : World × List TNTEntity) (e : TNTEntity),
      e ∈ st.2 → e ∈ (ds.foldl (explodeStep gen rv rd x y z) st).2 := by
  intro ds
  induction ds with
  | nil => intro st e he; exact he
  | cons d rest ih =>
      intro st e he
      rw [List.foldl_cons]
      exact ih _ e (explodeStep_entities_mono gen rv rd x y z st d e he)

theorem explodeStep_ignites (gen : Int → Int → Chunk)
    (rv : Int → Int → Int → ℚ × ℚ) (rd : Int → Int → Int → ℚ) (x y z : ℚ)
    (st : World × List TNTEntity) (d : Int × Int × Int)
    (hn : d.1 * d.1 + d.2.1 * d.2.1 + d.2.2 * d.2.2 ≤ 16)
    (ht : (peek gen st.1 (⌊x⌋ + d.1) (⌊y⌋ + d.2.1) (⌊z⌋ + d.2.2)).type = BlockType.tnt) :
    ∃ e ∈ (explodeStep gen rv rd x y z st d).2,
      e.fuse = 80 ∧ e.x = ((⌊x⌋ + d.1 : Int) : ℚ) + 1/2 ∧
      e.y = ((⌊y⌋ + d.2.1 : Int) : ℚ) + 1/2 ∧ e.z = ((⌊z⌋ + d.2.2 : Int) : ℚ) + 1/2 := by
  simp only [explodeStep]
  rw [if_pos hn, Int.floor_add_int x d.1, Int.floor_add_int y d.2.1,
    Int.floor_add_int z d.2.2]
  rw [if_pos (show (getBlock gen st.1 (⌊x⌋ + d.1) (⌊y⌋ + d.2.1) (⌊z⌋ + d.2.2)).1.type =
      BlockType.tnt by rw [getBlock_fst]; exact ht)]
  simp only [igniteTNT, snd_pair]
  refine ⟨_, List.mem_append_right _ (List.mem_singleton_self _), rfl, rfl, rfl, rfl⟩

theorem explodeFold_ignites (gen : Int → Int → Chunk)
    (rv : Int → Int → Int → ℚ × ℚ) (rd : Int → Int → Int → ℚ) (x y z : ℚ) :
    ∀ (ds : List (Int × Int × Int)) (st : World × List TNTEntity)
      (d : Int × Int × Int), d ∈ ds →
      d.1 * d.1 + d.2.1 * d.2.1 + d.2.2 * d.2.2 ≤ 16 →
      (peek gen st.1 (⌊x⌋ + d.1) (⌊y⌋ + d.2.1) (⌊z⌋ + d.2.2)).type = BlockType.tnt →
      ∃ e ∈ (ds.foldl (explodeStep gen rv rd x y z) st).2,
        e.fuse = 80 ∧ e.x = ((⌊x⌋ + d.1 : Int) : ℚ) + 1/2 ∧
        e.y = ((⌊y⌋ + d.2.1 : Int) : ℚ) + 1/2 ∧ e.z = ((⌊z⌋ + d.2.2 : Int) : ℚ) + 1/2 := by
  intro ds
  induction ds with
  | nil => intro st d hd; exact absurd hd (List.not_mem_nil d)
  | cons d0 rest ih =>
      intro st d hd hn ht
      rw [List.foldl_cons]
      by_cases hdd : d0 = d
      · subst hdd
        obtain ⟨e, he, hp⟩ := explodeStep_ignites gen rv rd x y z st d0 hn ht
        exact ⟨e, explodeFold_entities_mono gen rv rd x y z rest _ e he, hp⟩
      · have hd' : d ∈ rest := by
          rcases List.mem_cons.mp hd with h | h
          · exact absurd h.symm hdd
          · exact h
        apply ih (explodeStep gen rv rd x y z st d0) d hd' hn
        rw [peek_explodeStep]
        rw [if_neg ?_]
        · exact ht
        · rintro ⟨⟨h1, h2, h3⟩, -⟩
          apply hdd
          obtain ⟨a1, a2, a3⟩ := d0
          obtain ⟨b1, b2, b3⟩ := d
          rw [Prod.mk.injEq, Prod.mk.injEq]
          simp only at h1 h2 h3
          exact ⟨by omega, by omega, by omega⟩

/-- C4: one detonation at center (x, y, z) affects exactly the voxels
whose integer offset from the floored center has squared norm at most 16
(Euclidean distance at most the radius 4, encoded by squaring): outside
that ball every voxel is unchanged; inside it, a tnt voxel becomes air
(chain ignition, with an armed fuse-80 entity spawned at that voxel
center), any other non-air voxel becomes air exactly when its random
draw q satisfies the source test `q > dist / 4 * 0.5` (encoded squared
in `destroys`), and air stays air - the per-voxel outcome is
`explodeOutcome`. -/
theorem C4_explosion_effect (gen : Int → Int → Chunk)
    (rv : Int → Int → Int → ℚ × ℚ) (rd : Int → Int → Int → ℚ)
    (st : World × List TNTEntity) (x y z : ℚ) :
    (∀ a b c : Int,
        16 < (a - ⌊x⌋) * (a - ⌊x⌋) + (b - ⌊y⌋) * (b - ⌊y⌋) + (c - ⌊z⌋) * (c - ⌊z⌋) →
        peek gen (explodeTNT gen rv rd st x y z).1 a b c = peek gen st.1 a b c) ∧
    (∀ dx dy dz : Int, dx * dx + dy * dy + dz * dz ≤ 16 →
        peek gen (explodeTNT gen rv rd st x y z).1 (⌊x⌋ + dx) (⌊y⌋ + dy) (⌊z⌋ + dz) =
          explodeOutcome (peek gen st.1 (⌊x⌋ + dx) (⌊y⌋ + dy) (⌊z⌋ + dz))
            (rd dx dy dz) (dx * dx + dy * dy + dz * dz)) ∧
    (∀ dx dy dz : Int, dx * dx + dy * dy + dz * dz ≤ 16 →
        (peek gen st.1 (⌊x⌋ + dx) (⌊y⌋ + dy) (⌊z⌋ + dz)).type = BlockType.tnt →
        ∃ e ∈ (explodeTNT gen rv rd st x y z).2,
          e.fuse = 80 ∧ e.x = ((⌊x⌋ + dx : Int) : ℚ) + 1/2 ∧
          e.y = ((⌊y⌋ + dy : Int) : ℚ) + 1/2 ∧ e.z = ((⌊z⌋ + dz : Int) : ℚ) + 1/2) := by
  refine ⟨?_, ?_, ?_⟩
  · intro a b c hfar
    show peek gen (offsetGrid.foldl (explodeStep gen rv rd x y z) st).1 a b c = _
    rw [peek_explodeFold gen rv rd x y z offsetGrid st a b c,
      if_neg (fun hh => absurd hh.2 (not_le.mpr hfar))]
  · intro dx dy dz hn
    show peek gen (offsetGrid.foldl (explodeStep gen rv rd x y z) st).1 _ _ _ = _
    rw [peek_explodeFold gen rv rd x y z offsetGrid st (⌊x⌋ + dx) (⌊y⌋ + dy) (⌊z⌋ + dz)]
    simp only [add_sub_cancel_left]
    have hx2 : dx * dx ≤ 16 := by nlinarith [mul_self_nonneg dy, mul_self_nonneg dz]
    have hy2 : dy * dy ≤ 16 := by nlinarith [mul_self_nonneg dx, mul_self_nonneg dz]
    have hz2 : dz * dz ≤ 16 := by nlinarith [mul_self_nonneg dx, mul_self_nonneg dy]
    obtain ⟨hx1, hx3⟩ := sq_le_four hx2
    obtain ⟨hy1, hy3⟩ := sq_le_four hy2
    obtain ⟨hz1, hz3⟩ := sq_le_four hz2
    rw [if_pos ⟨mem_offsetGrid hx1 hx3 hy1 hy3 hz1 hz3, hn⟩]
  · intro dx dy dz hn ht
    have hx2 : dx * dx ≤ 16 := by nlinarith [mul_self_nonneg dy, mul_self_nonneg dz]
    have hy2 : dy * dy ≤ 16 := by nlinarith [mul_self_nonneg dx, mul_self_nonneg dz]
    have hz2 : dz * dz ≤ 16 := by nlinarith [mul_self_nonneg dx, mul_self_nonneg dy]
    obtain ⟨hx1, hx3⟩ := sq_le_four hx2
    obtain ⟨hy1, hy3⟩ := sq_le_four hy2
    obtain ⟨hz1, hz3⟩ := sq_le_four hz2
    exact explodeFold_ignites gen rv rd x y z offsetGrid st (dx, dy, dz)
      (mem_offsetGrid hx1 hx3 hy1 hy3 hz1 hz3) hn ht

theorem C4_witness :
    ((0 : Int) * 0 + 0 * 0 + 0 * 0 ≤ 16) ∧
    peek genAir (explodeTNT genAir rvZero rdZero (wTNT0, []) 0 0 0).1
        (⌊(0 : ℚ)⌋ + 0) (⌊(0 : ℚ)⌋ + 0) (⌊(0 : ℚ)⌋ + 0) =
      explodeOutcome (peek genAir wTNT0 (⌊(0 : ℚ)⌋ + 0) (⌊(0 : ℚ)⌋ + 0) (⌊(0 : ℚ)⌋ + 0))
        (rdZero 0 0 0) (0 * 0 + 0 * 0 + 0 * 0) :=
  ⟨by norm_num,
    (C4_explosion_effect genAir rvZero rdZero (wTNT0, []) 0 0 0).2.1 0 0 0 (by norm_num)⟩

end Voxel
